import Mathlib

/-!
Verification development for the chat-completion relay server of this repository.

The server is JavaScript (two near-identical copies: an ungated one in `src/index.js`
and a gated one, with the bearer-token Auth Gate, in the second source file; the gated
copy is the canonical variant per the specification).  The core logic embedded here:

* `validateAndCleanSchema` / `cleanSchemaProperties` — the recursive tool-schema
  normalizer (identical in both copies),
* `formatToolsForLLM` — the tool formatter (identical in both copies),
* system-prompt injection into the message list,
* assembly of the outbound LLM request body (as serialized by `JSON.stringify`),
* the gated request handler: auth-header check, auth-service validation, API-key
  check, then the outbound LLM call.

JavaScript runtime values are modelled by the mutual inductive family `JVal` /
`JList` / `JFields` below: a JSON-like value tree where objects are ordered
association lists (JS objects preserve insertion order; the sources never create
integer-like keys inside plain objects, so the integer-key reordering rule of JS
property enumeration is not modelled) and `undefined` models JavaScript `undefined`.
Numbers are modelled as integers: every number the embedded code paths ever
produce or compare is an integer, and no claim involves fractional values.
-/

mutual

inductive JVal where
  | undefined : JVal
  | null : JVal
  | bool : Bool → JVal
  | num : Int → JVal
  | str : String → JVal
  | arr : JList → JVal
  | obj : JFields → JVal

inductive JList where
  | nil : JList
  | cons : JVal → JList → JList

inductive JFields where
  | nil : JFields
  | cons : String → JVal → JFields → JFields

end

/-- JavaScript truthiness of a value (`Boolean(v)`): `undefined`, `null`, `false`,
`0` and `""` are falsy; every other value, in particular every array and every
object, is truthy.  (`NaN`, the one other falsy value, does not arise: numbers are
modelled as integers.) -/
def truthy : JVal → Bool
  | .undefined => false
  | .null => false
  | .bool b => b
  | .num n => n != 0
  | .str s => s != ""
  | .arr _ => true
  | .obj _ => true

/-- Whether `typeof v === "object"` in JavaScript: true exactly for `null`, arrays
and plain objects. -/
def tobj : JVal → Bool
  | .null => true
  | .arr _ => true
  | .obj _ => true
  | _ => false

def isUndefined : JVal → Bool
  | .undefined => true
  | _ => false

def isObjB : JVal → Bool
  | .obj _ => true
  | _ => false

def isArrB : JVal → Bool
  | .arr _ => true
  | _ => false

/-- JavaScript strict equality of a value with a string literal (`v === "s"`):
true only when `v` is that very string. -/
def isStrEq (v : JVal) (s : String) : Bool :=
  match v with
  | .str t => t == s
  | _ => false

/-- First binding of key `k` in an object's field list (JS objects cannot hold
duplicate keys, so first-match equals the unique match on faithful inputs). -/
def getF : JFields → String → Option JVal
  | .nil, _ => none
  | .cons k' v tl, k => if k' == k then some v else getF tl k

/-- JS property read `o.k`: the bound value, or `undefined` when the key is absent. -/
def getD (fs : JFields) (k : String) : JVal := (getF fs k).getD .undefined

/-- JS property write `o.k = v`: replace the value in place when the key exists
(keeping its position), otherwise append the new binding at the end — exactly the
insertion-order behaviour of JS object assignment. -/
def setF : JFields → String → JVal → JFields
  | .nil, k, v => .cons k v .nil
  | .cons k' v' tl, k, v =>
      if k' == k then .cons k' v tl else .cons k' v' (setF tl k v)

/-- Property read through a possibly-primitive receiver.  This models both the
optional-chained `v?.k` (yields `undefined` for `null`/`undefined` receivers) and
the plain `v.k` on non-nullish receivers (property reads on primitives yield
`undefined`; none of the names read by the server exist on primitive prototypes).
Plain `v.k` on `null`/`undefined` would throw in JS; theorems about code paths
that perform an unguarded read therefore carry an object-shaped hypothesis. -/
def jsGetProp (v : JVal) (k : String) : JVal :=
  match v with
  | .obj fs => getD fs k
  | _ => .undefined

def jlen : JList → Nat
  | .nil => 0
  | .cons _ tl => jlen tl + 1

def jgetIdx : JList → Nat → Option JVal
  | .nil, _ => none
  | .cons v _, 0 => some v
  | .cons _ tl, n + 1 => jgetIdx tl n

def jheadD : JList → JVal
  | .nil => .undefined
  | .cons v _ => v

def isNilL : JList → Bool
  | .nil => true
  | _ => false

def isNilF : JFields → Bool
  | .nil => true
  | _ => false

/-- Decimal digit character.  Only ever applied to `n % 10`; the fallback arm is
unreachable and exists to keep the function total. -/
def digitChar : Nat → Char
  | 0 => '0'
  | 1 => '1'
  | 2 => '2'
  | 3 => '3'
  | 4 => '4'
  | 5 => '5'
  | 6 => '6'
  | 7 => '7'
  | 8 => '8'
  | 9 => '9'
  | _ => '0'

/-- Decimal digits of `n`, most significant first, with structural fuel (the fuel
`n + 1` used below always suffices since `n / 10 < n` for `n ≥ 10`). -/
def decChars : Nat → Nat → List Char
  | 0, _ => []
  | fuel + 1, n => if n < 10 then [digitChar n] else decChars fuel (n / 10) ++ [digitChar (n % 10)]

/-- Decimal string of a natural number — the JS string form of an array index. -/
def decStr (n : Nat) : String := String.mk (decChars (n + 1) n)

/-- The field list produced by object-spreading an array (`{ ...xs }`): the
elements keyed by their decimal indices, in order. -/
def indexFields : Nat → JList → JFields
  | _, .nil => .nil
  | i, .cons v tl => .cons (decStr i) v (indexFields (i + 1) tl)

/-- The schema returned for non-object input: `{ type: "object", properties: {} }`. -/
def defaultSchema : JVal :=
  .obj (.cons "type" (.str "object") (.cons "properties" (.obj .nil) .nil))

/-- The default array item schema: `{ type: "string" }`. -/
def defaultItems : JVal :=
  .obj (.cons "type" (.str "string") .nil)

/-- `if (!cleanSchema.type) cleanSchema.type = "object";` -/
def stage1 (fs : JFields) : JFields :=
  if truthy (getD fs "type") then fs else setF fs "type" (.str "object")

/-- `if (!cleanSchema.properties) cleanSchema.properties = {};`
`po` is the properties value read from the object at this point; `stage1` touches
only the `"type"` key, so this equals the value read from the original spread. -/
def stage2 (fs1 : JFields) (po : JVal) : JFields :=
  if truthy po then fs1 else setF fs1 "properties" (.obj .nil)

/-- `if (cleanSchema.properties && typeof cleanSchema.properties === "object")
     cleanSchema.properties = cleanSchemaProperties(cleanSchema.properties);`
The guard re-reads the (possibly just defaulted) properties value.  `pc` is the
precomputed `cleanSchemaProperties` image of the ORIGINAL properties value `po`
(passed in so that the recursion stays structural); when `po` was falsy the
current value is the just-installed `{}`, and `cleanSchemaProperties({}) = {}`. -/
def stage3 (fs2 : JFields) (po pc : JVal) : JFields :=
  let p2 := getD fs2 "properties"
  if truthy p2 && tobj p2 then
    setF fs2 "properties" (if truthy po then pc else .obj .nil)
  else fs2

/-- `if (cleanSchema.type === "array" && !cleanSchema.items)
     cleanSchema.items = { type: "string" };` -/
def stage4 (fs3 : JFields) : JFields :=
  if isStrEq (getD fs3 "type") "array" && !(truthy (getD fs3 "items")) then
    setF fs3 "items" defaultItems
  else fs3

/-- The four sequential mutations `validateAndCleanSchema` performs on the shallow
copy `{ ...schema }`. -/
def assembleFields (fs : JFields) (po pc : JVal) : JFields :=
  stage4 (stage3 (stage2 (stage1 fs) po) po pc)

mutual

/-- `validateAndCleanSchema(schema)` from the sources.  A value that is falsy or
whose `typeof` is not `"object"` — i.e. anything other than an array or a plain
object — yields the default schema (`null` and `undefined` are falsy; booleans,
numbers and strings fail the `typeof` test when truthy and the falsiness test
otherwise).  An object is shallow-copied and mutated by the four stages.  An
array is truthy with `typeof "object"`, so it is object-spread into index-keyed
fields and mutated likewise; its keys are decimal strings, so its `"properties"`
read yields `undefined` and the cleaned-properties argument is never consulted. -/
def validateAndCleanSchema : JVal → JVal
  | .undefined => defaultSchema
  | .null => defaultSchema
  | .bool _ => defaultSchema
  | .num _ => defaultSchema
  | .str _ => defaultSchema
  | .obj fs => .obj (assembleFields fs (getD fs "properties") ((propsCleanLookup fs).getD .undefined))
  | .arr xs => .obj (assembleFields (indexFields 0 xs) (getD (indexFields 0 xs) "properties") .undefined)

/-- Locates the `"properties"` binding of a field list and returns its image
under `cleanSchemaProperties` when it is an object or an array (the only values
the source ever passes to `cleanSchemaProperties`), and the value itself
otherwise.  Fused with the lookup so the recursion is structural. -/
def propsCleanLookup : JFields → Option JVal
  | .nil => none
  | .cons k v tl =>
      if k == "properties" then
        some (match v with
          | .obj pfs => .obj (cleanEntries pfs)
          | .arr xs => .obj (cleanArrEntries 0 xs)
          | w => w)
      else propsCleanLookup tl

/-- `cleanSchemaProperties` on the entries of an object: each value with
`typeof === "object"` (objects, arrays and `null`) is recursively normalized;
every other value is copied verbatim. -/
def cleanEntries : JFields → JFields
  | .nil => .nil
  | .cons k v tl =>
      .cons k (if tobj v then validateAndCleanSchema v else v) (cleanEntries tl)

/-- `cleanSchemaProperties` on an array value: `Object.entries` enumerates the
elements under their decimal index keys, and each value is treated as above. -/
def cleanArrEntries : Nat → JList → JFields
  | _, .nil => .nil
  | i, .cons v tl =>
      .cons (decStr i) (if tobj v then validateAndCleanSchema v else v) (cleanArrEntries (i + 1) tl)

end

/-- The per-entry transformation of `cleanSchemaProperties`. -/
def cleanValue (v : JVal) : JVal :=
  if tobj v then validateAndCleanSchema v else v

/-- The value `cleanSchemaProperties` (or the verbatim fallthrough) turns a
properties value into; `propsCleanLookup` computes exactly this on the found
binding. -/
def cleanPropsVal : JVal → JVal
  | .obj pfs => .obj (cleanEntries pfs)
  | .arr xs => .obj (cleanArrEntries 0 xs)
  | w => w

def natDecimal (n : Nat) : String := decStr n

/-- JS string coercion of an integer (template-literal form). -/
def intStr (n : Int) : String :=
  if n < 0 then "-" ++ natDecimal n.natAbs else natDecimal n.natAbs

mutual

/-- JS `ToString` coercion as used by the template literal
``` `Execute ${tool.name}` ```: `undefined` and `null` print their names,
booleans and numbers their canonical forms, arrays join their elements with
commas (nullish elements printing as empty), plain objects print
`"[object Object]"`. -/
def jsToString : JVal → String
  | .undefined => "undefined"
  | .null => "null"
  | .bool b => if b then "true" else "false"
  | .num n => intStr n
  | .str s => s
  | .arr xs => joinComma xs
  | .obj _ => "[object Object]"

def joinComma : JList → String
  | .nil => ""
  | .cons v tl =>
      (match v with
        | .null => ""
        | .undefined => ""
        | w => jsToString w)
      ++ (match tl with | .nil => "" | .cons _ _ => ",")
      ++ joinComma tl

end

/-- One formatted tool entry:
`{ type: "function", function: { name, description, parameters } }` with the
source's defaults: `description: tool.description || "Execute " + tool.name` and
`parameters: validateAndCleanSchema(tool.inputSchema) || {type:"object",properties:{}}`
(the fallback is dead code since the normalizer always returns a truthy object). -/
def formatTool (tool : JVal) : JVal :=
  .obj (.cons "type" (.str "function")
    (.cons "function" (.obj
      (.cons "name" (jsGetProp tool "name")
      (.cons "description"
        (if truthy (jsGetProp tool "description") then jsGetProp tool "description"
         else .str ("Execute " ++ jsToString (jsGetProp tool "name")))
      (.cons "parameters"
        (if truthy (validateAndCleanSchema (jsGetProp tool "inputSchema")) then
           validateAndCleanSchema (jsGetProp tool "inputSchema")
         else defaultSchema)
      .nil)))) .nil))

def formatToolsList : JList → JList
  | .nil => .nil
  | .cons t tl => .cons (formatTool t) (formatToolsList tl)

/-- `formatToolsForLLM(tools)`: `if (!tools || !Array.isArray(tools)) return [];`
— arrays are always truthy, so the guard passes exactly the arrays — then a
per-element map. -/
def formatToolsForLLM : JVal → JList
  | .arr xs => formatToolsList xs
  | _ => .nil

/-- The fixed system prompt (process-wide constant `SYSTEM_PROMPT` in the source).
Its full prose — a multi-page Revit-assistant instruction text — is elided to its
opening line: no claim inspects the content, only that one fixed constant message
is injected. -/
def SYSTEM_PROMPT : String :=
  "Role:\nYou are a context-aware Revit AI Assistant that automates tasks inside Autodesk Revit using specialized tools."

/-- `{ role: 'system', content: SYSTEM_PROMPT }` -/
def systemMessage : JVal :=
  .obj (.cons "role" (.str "system") (.cons "content" (.str SYSTEM_PROMPT) .nil))

def charsToJList : List Char → JList
  | [] => .nil
  | c :: tl => .cons (.str (String.mk [c])) (charsToJList tl)

/-- The system-prompt injection step of the handler:

```
let finalMessages = messages;
if (includeSystemPrompt && messages && messages.length > 0) {
  const hasSystemPrompt = messages[0]?.role === 'system';
  if (!hasSystemPrompt) finalMessages = [ {role:'system',content:SYSTEM_PROMPT}, ...messages ];
}
```

For an array, `messages.length > 0` is non-emptiness and `messages[0]?.role`
reads the first element's role through optional chaining.  For a non-empty
string (degenerate but reachable in JS) `.length > 0` holds, `s[0]?.role` is
`undefined`, and array-spreading the string yields its characters.  Every other
value is falsy or has no `.length`, so it passes through unmodified. -/
def prepareMessages (includeSystemPrompt : JVal) (messages : JVal) : JVal :=
  match messages with
  | .arr xs =>
      if truthy includeSystemPrompt && !(isNilL xs)
          && !(isStrEq (jsGetProp (jheadD xs) "role") "system") then
        .arr (.cons systemMessage xs)
      else .arr xs
  | .str s =>
      if truthy includeSystemPrompt && s != "" then
        .arr (.cons systemMessage (charsToJList s.data))
      else .str s
  | v => v

/-- A destructuring default `const { x = d } = body`: the default applies exactly
when the bound value is `undefined`. -/
def jsDefault (v d : JVal) : JVal :=
  match v with
  | .undefined => d
  | _ => v

/-- The field list `JSON.stringify` serializes from an object literal:
fields whose value is `undefined` are omitted; the rest keep their order. -/
def jsonFields : List (String × JVal) → JFields
  | [] => .nil
  | (k, v) :: tl => if isUndefined v then jsonFields tl else .cons k v (jsonFields tl)

/-- The serialized outbound request body:

```
const requestBody = {
  model, messages: finalMessages,
  tools: formattedTools.length > 0 ? formattedTools : undefined,
  tool_choice: formattedTools.length > 0 ? 'auto' : undefined,
  max_completion_tokens: 4000, stream,
};
```

(`formattedTools.length > 0` is non-emptiness of the formatted list.) -/
def buildRequestBody (modelV finalMessages : JVal) (formattedTools : JList) (streamV : JVal) : JFields :=
  jsonFields
    [("model", modelV),
     ("messages", finalMessages),
     ("tools", if isNilL formattedTools then .undefined else .arr formattedTools),
     ("tool_choice", if isNilL formattedTools then .undefined else .str "auto"),
     ("max_completion_tokens", .num 4000),
     ("stream", streamV)]

/-- The destructured chat-completion payload
`const { messages, tools, model = 'gpt-5', stream = false, includeSystemPrompt = true } = req.body;`
— fields hold the raw JSON values, `undefined` when absent; the destructuring
defaults are applied by `llmRequestOf` / `gatedHandler` below. -/
structure ChatPayload where
  messages : JVal
  tools : JVal
  model : JVal
  stream : JVal
  includeSystemPrompt : JVal

/-- The outbound LLM request body the handler builds from a payload (the pure
composition of destructuring defaults, system-prompt injection, tool formatting
and body assembly; `const formattedTools = tools ? formatToolsForLLM(tools) : [];`). -/
def llmRequestOf (p : ChatPayload) : JFields :=
  buildRequestBody
    (jsDefault p.model (.str "gpt-5"))
    (prepareMessages (jsDefault p.includeSystemPrompt (.bool true)) p.messages)
    (if truthy p.tools then formatToolsForLLM p.tools else .nil)
    (jsDefault p.stream (.bool false))

/-- JS whitespace matched by the `\s` of `/^Bearer\s+/i` (the ASCII part; the
server's tokens are ASCII). -/
def isWsChar (c : Char) : Bool :=
  c == ' ' || c == '\t' || c == '\n' || c == '\r' || c == '\x0b' || c == '\x0c'

/-- `authHeader.replace(/^Bearer\s+/i, '')` on the character list: a leading
case-insensitive `Bearer` followed by at least one whitespace character is
removed together with all the whitespace that follows it; anything else is left
unchanged. -/
def stripBearerChars : List Char → List Char
  | c1 :: c2 :: c3 :: c4 :: c5 :: c6 :: rest =>
      if c1.toLower == 'b' && c2.toLower == 'e' && c3.toLower == 'a'
          && c4.toLower == 'r' && c5.toLower == 'e' && c6.toLower == 'r'
          && (match rest with | c :: _ => isWsChar c | [] => false) then
        rest.dropWhile isWsChar
      else c1 :: c2 :: c3 :: c4 :: c5 :: c6 :: rest
  | l => l

def stripBearer (s : String) : String := String.mk (stripBearerChars s.data)

/-- Outcome of the `fetch` to the auth-validation service, as observed by the
handler: a transport-level failure (rejected promise, including a failing
`.json()` parse — both land in the same `catch`), or an HTTP response with its
`ok` flag and parsed JSON body. -/
inductive AuthFetchOutcome where
  | transportError : AuthFetchOutcome
  | response : Bool → JVal → AuthFetchOutcome

/-- How far the gated handler gets before the outbound LLM call: an early JSON
error response with its HTTP status, or the initiation of the LLM fetch with the
serialized request body.  (The relay of the LLM response — JSON passthrough or
stream piping — happens after this point and is outside the claims.) -/
inductive HandlerOutcome where
  | earlyError : Nat → String → HandlerOutcome
  | llmInitiated : JFields → HandlerOutcome

/-- Result of running the gated handler: the outcome plus the list of tokens
POSTed to the auth-validation service (empty list = the service was never
contacted). -/
structure PipelineResult where
  outcome : HandlerOutcome
  authTokens : List String

/-- The gated `POST /api/chat/completions` handler (canonical variant), up to the
outbound LLM call:

1. `if (!authHeader) return 401 'No authorization token provided'` — no network
   call has happened yet (an absent header reads as `undefined`; an empty value
   is equally falsy);
2. `const token = authHeader.replace(/^Bearer\s+/i, '')`, then one POST of
   `{ token }` to the auth service, whose outcome is the `auth` argument:
   transport failure ⇒ `500 'Authentication check failed'` (the `catch`);
   non-`ok` response ⇒ `401 'Token validation request failed'`;
   `!validationData.isValid` ⇒ `401 'Invalid token'`;
   `!validationData.isFreeTrial` ⇒ `403 'Subscription required …'`;
3. `if (!apiKey) return 500 'OpenAI API key not configured'`;
4. otherwise the LLM fetch is initiated with the serialized request body.

The payload destructuring happens textually before the auth check but is pure,
so modelling it inside `llmRequestOf` is observationally identical. -/
def gatedHandler (authHeader : Option String) (p : ChatPayload)
    (apiKey : Option String) (auth : AuthFetchOutcome) : PipelineResult :=
  match authHeader with
  | none => ⟨.earlyError 401 "No authorization token provided", []⟩
  | some h =>
      if h == "" then ⟨.earlyError 401 "No authorization token provided", []⟩
      else
        let token := stripBearer h
        match auth with
        | .transportError => ⟨.earlyError 500 "Authentication check failed", [token]⟩
        | .response ok body =>
            if !ok then ⟨.earlyError 401 "Token validation request failed", [token]⟩
            else if !(truthy (jsGetProp body "isValid")) then
              ⟨.earlyError 401 "Invalid token", [token]⟩
            else if !(truthy (jsGetProp body "isFreeTrial")) then
              ⟨.earlyError 403 "Subscription required (Free trial expired or not active)", [token]⟩
            else
              match apiKey with
              | none => ⟨.earlyError 500 "OpenAI API key not configured", [token]⟩
              | some key =>
                  if key == "" then ⟨.earlyError 500 "OpenAI API key not configured", [token]⟩
                  else ⟨.llmInitiated (llmRequestOf p), [token]⟩

mutual

def jsize : JVal → Nat
  | .obj fs => fsize fs + 1
  | .arr xs => lsize xs + 1
  | _ => 1

def fsize : JFields → Nat
  | .nil => 0
  | .cons _ v tl => jsize v + fsize tl + 1

def lsize : JList → Nat
  | .nil => 0
  | .cons v tl => jsize v + lsize tl + 1

end

def fvals : JFields → List JVal
  | .nil => []
  | .cons _ v tl => v :: fvals tl

def lvals : JList → List JVal
  | .nil => []
  | .cons v tl => v :: lvals tl

mutual

/-- The invariant established by the normalizer on every node it constructs or
rewrites (the output root and, hereditarily, the `typeof`-object values of the
properties mappings it cleans): the node is an object whose `type` field is
present and truthy, whose `properties` field is present and truthy — and is an
object whose `typeof`-object entry values recursively satisfy the invariant —
and whose `items` field is present and truthy whenever `type` is exactly the
string `"array"`. -/
def normInv : JVal → Bool
  | .obj fs =>
      truthy (getD fs "type")
      && propsInvLookup fs
      && (!(isStrEq (getD fs "type") "array") || truthy (getD fs "items"))
  | _ => false

def propsInvLookup : JFields → Bool
  | .nil => false
  | .cons k v tl =>
      if k == "properties" then truthy v && propsValInv v else propsInvLookup tl

def propsValInv : JVal → Bool
  | .obj pfs => entriesInv pfs
  | .arr _ => false
  | _ => true

def entriesInv : JFields → Bool
  | .nil => true
  | .cons _ v tl => (if tobj v then normInv v else true) && entriesInv tl

end

mutual

/-- All object nodes of a JSON tree (the tree itself when it is an object, and
recursively every object reachable through field values and array elements). -/
def subNodes : JVal → List JVal
  | .obj fs => .obj fs :: subNodesF fs
  | .arr xs => subNodesL xs
  | _ => []

def subNodesF : JFields → List JVal
  | .nil => []
  | .cons _ v tl => subNodes v ++ subNodesF tl

def subNodesL : JList → List JVal
  | .nil => []
  | .cons v tl => subNodes v ++ subNodesL tl

end

/-- The per-node invariant claimed for every node of the normalizer's output:
the `type` field is present; an object-typed node has a properties mapping; an
array-typed node has an items node. -/
def nodeInvariant : JVal → Prop
  | .obj fs =>
      (getF fs "type").isSome = true
      ∧ (isStrEq (getD fs "type") "object" = true →
          ∃ pfs, getF fs "properties" = some (.obj pfs))
      ∧ (isStrEq (getD fs "type") "array" = true → (getF fs "items").isSome = true)
  | _ => True

/-- The claim that every node of the normalizer's output satisfies
`nodeInvariant` (claim C5 as stated). -/
def ClaimC5At (s : JVal) : Prop :=
  ∀ n ∈ subNodes (validateAndCleanSchema s), nodeInvariant n

/-- The properties mapping of the normalizer's output (empty when the output's
`properties` value is not an object — which never happens for inputs whose
properties value is an object). -/
def outPropsF (s : JVal) : JFields :=
  match jsGetProp (validateAndCleanSchema s) "properties" with
  | .obj o => o
  | _ => .nil

/-- The claim that the normalizer rewrites EVERY value of a present object
properties mapping through the normalization procedure itself — including
values that are not objects (claim C4 as stated). -/
def ClaimC4At (fs pfs : JFields) : Prop :=
  getF fs "properties" = some (.obj pfs) →
  ∀ k v, getF pfs k = some v →
    getF (outPropsF (.obj fs)) k = some (validateAndCleanSchema v)

theorem jfields_tail_ind (motive : JFields → Prop) (h1 : motive .nil)
    (h2 : ∀ k v tl, motive tl → motive (.cons k v tl)) : ∀ fs, motive fs
  | .nil => h1
  | .cons k v tl => h2 k v tl (jfields_tail_ind motive h1 h2 tl)

theorem jlist_tail_ind (motive : JList → Prop) (h1 : motive .nil)
    (h2 : ∀ v tl, motive tl → motive (.cons v tl)) : ∀ xs, motive xs
  | .nil => h1
  | .cons v tl => h2 v tl (jlist_tail_ind motive h1 h2 tl)

theorem jval_size_ind (motive : JVal → Prop)
    (step : ∀ v, (∀ w, jsize w < jsize v → motive w) → motive v) : ∀ v, motive v := by
  have H : ∀ n v, jsize v ≤ n → motive v := by
    intro n
    induction n with
    | zero =>
        intro v hv
        exact step v (fun w hw => absurd (Nat.lt_of_lt_of_le hw hv) (Nat.not_lt_zero _))
    | succ n ih =>
        intro v hv
        exact step v (fun w hw => ih w (Nat.le_of_lt_succ (Nat.lt_of_lt_of_le hw hv)))
  exact fun v => H (jsize v) v (Nat.le_refl _)

theorem getF_jsize : ∀ (fs : JFields) (k : String) (v : JVal),
    getF fs k = some v → jsize v ≤ fsize fs
  | .nil, _, _ => by intro h; simp [getF] at h
  | .cons k' v' tl, k, v => by
      intro h
      by_cases hk : k' = k
      · simp [getF, hk] at h
        subst h
        simp [fsize]
        omega
      · simp [getF, hk] at h
        have := getF_jsize tl k v h
        simp [fsize]
        omega

theorem mem_fvals_jsize : ∀ (pfs : JFields) (v : JVal), v ∈ fvals pfs → jsize v ≤ fsize pfs
  | .nil, v => by intro h; simp [fvals] at h
  | .cons k w tl, v => by
      intro h
      simp [fvals] at h
      rcases h with h | h
      · subst h; simp [fsize]; omega
      · have := mem_fvals_jsize tl v h
        simp [fsize]
        omega

theorem mem_lvals_jsize : ∀ (xs : JList) (v : JVal), v ∈ lvals xs → jsize v ≤ lsize xs
  | .nil, v => by intro h; simp [lvals] at h
  | .cons w tl, v => by
      intro h
      simp [lvals] at h
      rcases h with h | h
      · subst h; simp [lsize]; omega
      · have := mem_lvals_jsize tl v h
        simp [lsize]
        omega

theorem getF_setF_self : ∀ (fs : JFields) (k : String) (v : JVal),
    getF (setF fs k v) k = some v
  | .nil, k, v => by simp [setF, getF]
  | .cons k' v' tl, k, v => by
      by_cases hk : k' = k
      · simp [setF, hk, getF]
      · simp [setF, hk, getF, getF_setF_self tl k v]

theorem getF_setF_ne : ∀ (fs : JFields) (k k' : String) (v : JVal), k' ≠ k →
    getF (setF fs k v) k' = getF fs k'
  | .nil, k, k', v => by
      intro h
      simp [setF, getF, Ne.symm h]
  | .cons k'' v'' tl, k, k', v => by
      intro h
      by_cases hk : k'' = k
      · subst hk
        simp [setF, getF, Ne.symm h]
      · simp [setF, hk, getF]
        by_cases hk2 : k'' = k'
        · simp [hk2]
        · simp [hk2, getF_setF_ne tl k k' v h]

theorem setF_self : ∀ (fs : JFields) (k : String) (v : JVal),
    getF fs k = some v → setF fs k v = fs
  | .nil, k, v => by intro h; simp [getF] at h
  | .cons k' v' tl, k, v => by
      intro h
      by_cases hk : k' = k
      · simp [getF, hk] at h
        simp [setF, hk, h]
      · simp [getF, hk] at h
        simp [setF, hk, setF_self tl k v h]

theorem truthy_getD_some (fs : JFields) (k : String) (h : truthy (getD fs k) = true) :
    getF fs k = some (getD fs k) := by
  unfold getD at *
  cases hg : getF fs k with
  | none => rw [hg] at h; simp [truthy] at h
  | some w => simp [hg]

theorem digitChar_isDigit : ∀ m, (digitChar m).isDigit = true := by
  intro m
  match m with
  | 0 => rfl
  | 1 => rfl
  | 2 => rfl
  | 3 => rfl
  | 4 => rfl
  | 5 => rfl
  | 6 => rfl
  | 7 => rfl
  | 8 => rfl
  | 9 => rfl
  | n + 10 => rfl

theorem decChars_mem_isDigit : ∀ (fuel n : Nat) (c : Char),
    c ∈ decChars fuel n → c.isDigit = true
  | 0, n, c => by intro h; simp [decChars] at h
  | fuel + 1, n, c => by
      intro h
      simp only [decChars] at h
      by_cases hn : n < 10
      · simp [hn] at h
        subst h
        exact digitChar_isDigit n
      · simp [hn] at h
        rcases h with h | h
        · exact decChars_mem_isDigit fuel (n / 10) c h
        · subst h
          exact digitChar_isDigit (n % 10)

theorem decChars_ne_nil (fuel n : Nat) : decChars (fuel + 1) n ≠ [] := by
  simp only [decChars]
  by_cases hn : n < 10
  · simp [hn]
  · simp [hn]

theorem decStr_ne (i : Nat) (k : String)
    (hk : ∀ c, k.data.head? = some c → c.isDigit = false) : decStr i ≠ k := by
  intro h
  have hdata : decChars (i + 1) i = k.data := congrArg String.data h
  cases hd : decChars (i + 1) i with
  | nil => exact decChars_ne_nil i i hd
  | cons c cs =>
      have hh : k.data.head? = some c := by rw [← hdata, hd]; rfl
      have h1 := hk c hh
      have h2 : c ∈ decChars (i + 1) i := by rw [hd]; exact List.mem_cons_self c cs
      have h3 := decChars_mem_isDigit (i + 1) i c h2
      rw [h3] at h1
      exact Bool.noConfusion h1

theorem getF_indexFields : ∀ (xs : JList) (i : Nat) (k : String),
    (∀ c, k.data.head? = some c → c.isDigit = false) → getF (indexFields i xs) k = none
  | .nil, i, k => by intro hk; simp [indexFields, getF]
  | .cons v tl, i, k => by
      intro hk
      simp [indexFields, getF, decStr_ne i k hk, getF_indexFields tl (i + 1) k hk]

theorem vacs_isObj : ∀ s, isObjB (validateAndCleanSchema s) = true := by
  intro s
  cases s <;> rfl

theorem truthy_vacs : ∀ s, truthy (validateAndCleanSchema s) = true := by
  intro s
  cases s <;> rfl

theorem tobj_vacs : ∀ s, tobj (validateAndCleanSchema s) = true := by
  intro s
  cases s <;> rfl

theorem stage1_type (fs : JFields) :
    getD (stage1 fs) "type" = if truthy (getD fs "type") then getD fs "type" else .str "object" := by
  unfold stage1
  cases h : truthy (getD fs "type")
  · simp [getD, getF_setF_self]
  · simp

theorem stage1_ne (fs : JFields) (k : String) (h : k ≠ "type") :
    getF (stage1 fs) k = getF fs k := by
  unfold stage1
  cases h1 : truthy (getD fs "type")
  · simp [getF_setF_ne fs "type" k _ h]
  · simp

theorem stage2_props (fs1 : JFields) (po : JVal) :
    getF (stage2 fs1 po) "properties"
      = if truthy po then getF fs1 "properties" else some (.obj .nil) := by
  unfold stage2
  cases h : truthy po
  · simp [getF_setF_self]
  · simp

theorem stage2_ne (fs1 : JFields) (po : JVal) (k : String) (h : k ≠ "properties") :
    getF (stage2 fs1 po) k = getF fs1 k := by
  unfold stage2
  cases h1 : truthy po
  · simp [getF_setF_ne fs1 "properties" k _ h]
  · simp

theorem stage3_props (fs2 : JFields) (po pc : JVal) :
    getF (stage3 fs2 po pc) "properties"
      = if truthy (getD fs2 "properties") && tobj (getD fs2 "properties") then
          some (if truthy po then pc else .obj .nil)
        else getF fs2 "properties" := by
  unfold stage3
  cases h : truthy (getD fs2 "properties") && tobj (getD fs2 "properties")
  · simp [h]
  · simp [h, getF_setF_self]

theorem stage3_ne (fs2 : JFields) (po pc : JVal) (k : String) (h : k ≠ "properties") :
    getF (stage3 fs2 po pc) k = getF fs2 k := by
  unfold stage3
  cases h1 : truthy (getD fs2 "properties") && tobj (getD fs2 "properties")
  · simp [h1]
  · simp [h1, getF_setF_ne fs2 "properties" k _ h]

theorem stage4_ne (fs3 : JFields) (k : String) (h : k ≠ "items") :
    getF (stage4 fs3) k = getF fs3 k := by
  unfold stage4
  cases h1 : isStrEq (getD fs3 "type") "array" && !(truthy (getD fs3 "items"))
  · simp [h1]
  · simp [h1, getF_setF_ne fs3 "items" k _ h]

theorem stage4_items (fs3 : JFields)
    (h : isStrEq (getD (stage4 fs3) "type") "array" = true) :
    truthy (getD (stage4 fs3) "items") = true := by
  have htype : getF (stage4 fs3) "type" = getF fs3 "type" :=
    stage4_ne fs3 "type" (by decide)
  cases h1 : isStrEq (getD fs3 "type") "array" && !(truthy (getD fs3 "items"))
  · unfold stage4 at *
    rw [h1] at h ⊢
    simp only [if_neg Bool.false_ne_true] at h ⊢
    rw [Bool.and_eq_false_iff] at h1
    rcases h1 with h1 | h1
    · rw [h] at h1; exact Bool.noConfusion h1
    · simpa using h1
  · unfold stage4
    rw [h1]
    simp only [if_pos rfl]
    simp [getD, getF_setF_self]
    rfl

theorem AF_type (fs : JFields) (po pc : JVal) :
    getD (assembleFields fs po pc) "type"
      = if truthy (getD fs "type") then getD fs "type" else .str "object" := by
  unfold assembleFields
  have h4 := stage4_ne (stage3 (stage2 (stage1 fs) po) po pc) "type" (by decide)
  have h3 := stage3_ne (stage2 (stage1 fs) po) po pc "type" (by decide)
  have h2 := stage2_ne (stage1 fs) po "type" (by decide)
  unfold getD
  rw [h4, h3, h2]
  have := stage1_type fs
  unfold getD at this
  exact this

theorem AF_props (fs : JFields) (po pc : JVal) (hpo : po = getD fs "properties") :
    getF (assembleFields fs po pc) "properties"
      = some (if truthy po then (if tobj po then pc else po) else .obj .nil) := by
  unfold assembleFields
  have h4 := stage4_ne (stage3 (stage2 (stage1 fs) po) po pc) "properties" (by decide)
  rw [h4]
  have hY : getF (stage2 (stage1 fs) po) "properties"
      = if truthy po then getF fs "properties" else some (.obj .nil) := by
    rw [stage2_props]
    rw [stage1_ne fs "properties" (by decide)]
  rw [stage3_props]
  cases htr : truthy po
  · have hq : getD (stage2 (stage1 fs) po) "properties" = .obj .nil := by
      unfold getD
      rw [hY, htr]
      simp
    rw [hq]
    simp [truthy, tobj, htr]
  · have hsome : getF fs "properties" = some po := by
      rw [hpo]
      exact truthy_getD_some fs "properties" (by rw [← hpo]; exact htr)
    have hq : getD (stage2 (stage1 fs) po) "properties" = po := by
      unfold getD
      rw [hY, htr]
      simp [hsome]
    rw [hq]
    cases hto : tobj po
    · simp [htr, hto, hY, hsome]
    · simp [htr, hto]

theorem AF_items (fs : JFields) (po pc : JVal)
    (h : isStrEq (getD (assembleFields fs po pc) "type") "array" = true) :
    truthy (getD (assembleFields fs po pc) "items") = true :=
  stage4_items _ h

theorem vacs_obj_eq (fs : JFields) :
    validateAndCleanSchema (.obj fs)
      = .obj (assembleFields fs (getD fs "properties") ((propsCleanLookup fs).getD .undefined)) := by
  rw [validateAndCleanSchema.eq_def]

theorem vacs_arr_eq (xs : JList) :
    validateAndCleanSchema (.arr xs)
      = .obj (assembleFields (indexFields 0 xs) (getD (indexFields 0 xs) "properties") .undefined) := by
  rw [validateAndCleanSchema.eq_def]

theorem propsCleanLookup_cons (k : String) (v : JVal) (tl : JFields) :
    propsCleanLookup (.cons k v tl)
      = if k = "properties" then some (cleanPropsVal v) else propsCleanLookup tl := by
  rw [propsCleanLookup.eq_def]
  by_cases hk : k = "properties"
  · simp only [hk, beq_self_eq_true, if_true, if_pos]
    cases v <;> rfl
  · simp [hk]

theorem cleanEntries_cons (k : String) (v : JVal) (tl : JFields) :
    cleanEntries (.cons k v tl) = .cons k (cleanValue v) (cleanEntries tl) := by
  rw [cleanEntries.eq_def]
  rfl

theorem cleanArrEntries_cons (i : Nat) (v : JVal) (tl : JList) :
    cleanArrEntries i (.cons v tl)
      = .cons (decStr i) (cleanValue v) (cleanArrEntries (i + 1) tl) := by
  rw [cleanArrEntries.eq_def]
  rfl

theorem normInv_obj (fs : JFields) :
    normInv (.obj fs)
      = (truthy (getD fs "type") && propsInvLookup fs
          && (!(isStrEq (getD fs "type") "array") || truthy (getD fs "items"))) := by
  rw [normInv.eq_def]

theorem propsInvLookup_cons (k : String) (v : JVal) (tl : JFields) :
    propsInvLookup (.cons k v tl)
      = if k = "properties" then truthy v && propsValInv v else propsInvLookup tl := by
  rw [propsInvLookup.eq_def]
  by_cases hk : k = "properties"
  · simp [hk]
  · simp [hk]

theorem entriesInv_cons (k : String) (v : JVal) (tl : JFields) :
    entriesInv (.cons k v tl) = ((if tobj v then normInv v else true) && entriesInv tl) := by
  rw [entriesInv.eq_def]

theorem propsValInv_obj (pfs : JFields) : propsValInv (.obj pfs) = entriesInv pfs := by
  rw [propsValInv.eq_def]

theorem propsCleanLookup_eq (fs : JFields) :
    propsCleanLookup fs = (getF fs "properties").map cleanPropsVal := by
  induction fs using jfields_tail_ind with
  | h1 => rfl
  | h2 k v tl ih =>
      rw [propsCleanLookup_cons]
      by_cases hk : k = "properties"
      · simp [getF, hk]
      · simp [getF, hk, ih]

theorem getF_cleanEntries (pfs : JFields) (k : String) :
    getF (cleanEntries pfs) k = (getF pfs k).map cleanValue := by
  induction pfs using jfields_tail_ind with
  | h1 => rfl
  | h2 k' v tl ih =>
      rw [cleanEntries_cons]
      simp only [getF]
      by_cases hk : k' = k
      · simp [hk]
      · simp [hk, ih]

theorem propsInvLookup_eq (fs : JFields) :
    propsInvLookup fs
      = ((getF fs "properties").map (fun p => truthy p && propsValInv p)).getD false := by
  induction fs using jfields_tail_ind with
  | h1 => rfl
  | h2 k v tl ih =>
      rw [propsInvLookup_cons]
      by_cases hk : k = "properties"
      · simp [getF, hk]
      · simp [getF, hk, ih]

theorem entriesInv_cleanEntries (pfs : JFields)
    (IH : ∀ v ∈ fvals pfs, tobj v = true → normInv (validateAndCleanSchema v) = true) :
    entriesInv (cleanEntries pfs) = true := by
  induction pfs using jfields_tail_ind with
  | h1 => rfl
  | h2 k v tl ih =>
      rw [cleanEntries_cons, entriesInv_cons]
      have htl : entriesInv (cleanEntries tl) = true :=
        ih (fun w hw hwt => IH w (List.mem_cons_of_mem _ hw) hwt)
      have hhead : (if tobj (cleanValue v) then normInv (cleanValue v) else true) = true := by
        unfold cleanValue
        cases hv : tobj v
        · simp [hv]
        · simp only [hv, if_true, tobj_vacs]
          exact IH v (by simp [fvals]) hv
      rw [hhead, htl]
      rfl

theorem entriesInv_cleanArr (xs : JList) : ∀ i : Nat,
    (∀ v ∈ lvals xs, tobj v = true → normInv (validateAndCleanSchema v) = true) →
    entriesInv (cleanArrEntries i xs) = true := by
  induction xs using jlist_tail_ind with
  | h1 => intro i IH; rfl
  | h2 v tl ih =>
      intro i IH
      rw [cleanArrEntries_cons, entriesInv_cons]
      have htl : entriesInv (cleanArrEntries (i + 1) tl) = true :=
        ih (i + 1) (fun w hw hwt => IH w (List.mem_cons_of_mem _ hw) hwt)
      have hhead : (if tobj (cleanValue v) then normInv (cleanValue v) else true) = true := by
        unfold cleanValue
        cases hv : tobj v
        · simp [hv]
        · simp only [hv, if_true, tobj_vacs]
          exact IH v (by simp [lvals]) hv
      rw [hhead, htl]
      rfl

theorem cleanEntries_id (pfs : JFields) (hInv : entriesInv pfs = true)
    (IH : ∀ v ∈ fvals pfs, normInv v = true → validateAndCleanSchema v = v) :
    cleanEntries pfs = pfs := by
  induction pfs using jfields_tail_ind with
  | h1 => rfl
  | h2 k v tl ih =>
      rw [entriesInv_cons, Bool.and_eq_true] at hInv
      obtain ⟨hv, htl⟩ := hInv
      rw [cleanEntries_cons]
      have hval : cleanValue v = v := by
        unfold cleanValue
        cases ht : tobj v
        · simp
        · rw [ht] at hv
          simp only [if_true] at hv ⊢
          exact IH v (by simp [fvals]) hv
      rw [hval, ih htl (fun w hw hn => IH w (List.mem_cons_of_mem _ hw) hn)]

theorem key_head_type : ∀ c : Char, ("type" : String).data.head? = some c → c.isDigit = false := by
  intro c hc
  have h2 : ("type" : String).data.head? = some 't' := rfl
  rw [h2] at hc
  rw [← Option.some.inj hc]
  rfl

theorem key_head_properties : ∀ c : Char,
    ("properties" : String).data.head? = some c → c.isDigit = false := by
  intro c hc
  have h2 : ("properties" : String).data.head? = some 'p' := rfl
  rw [h2] at hc
  rw [← Option.some.inj hc]
  rfl

theorem getD_indexFields (xs : JList) (i : Nat) (k : String)
    (hk : ∀ c, k.data.head? = some c → c.isDigit = false) :
    getD (indexFields i xs) k = .undefined := by
  unfold getD
  rw [getF_indexFields xs i k hk]
  rfl

theorem norm_vacs (s : JVal) : normInv (validateAndCleanSchema s) = true := by
  induction s using jval_size_ind with
  | step v IH =>
      cases v with
      | undefined => rfl
      | null => rfl
      | bool b => rfl
      | num n => rfl
      | str t => rfl
      | obj fs =>
          rw [vacs_obj_eq, normInv_obj]
          have hT : truthy (getD (assembleFields fs (getD fs "properties")
              ((propsCleanLookup fs).getD .undefined)) "type") = true := by
            rw [AF_type]
            cases h : truthy (getD fs "type")
            · rfl
            · simp [h]
          have hI : (!(isStrEq (getD (assembleFields fs (getD fs "properties")
                ((propsCleanLookup fs).getD .undefined)) "type") "array")
              || truthy (getD (assembleFields fs (getD fs "properties")
                ((propsCleanLookup fs).getD .undefined)) "items")) = true := by
            cases h : isStrEq (getD (assembleFields fs (getD fs "properties")
                ((propsCleanLookup fs).getD .undefined)) "type") "array"
            · rfl
            · simp only [Bool.not_true, Bool.false_or]
              exact AF_items fs _ _ h
          have hP : propsInvLookup (assembleFields fs (getD fs "properties")
              ((propsCleanLookup fs).getD .undefined)) = true := by
            rw [propsInvLookup_eq, AF_props fs _ _ rfl]
            simp only [Option.map_some', Option.getD_some]
            cases htr : truthy (getD fs "properties")
            · rfl
            · cases hto : tobj (getD fs "properties")
              · simp only [if_true, if_false, Bool.false_eq_true]
                rw [htr]
                simp only [Bool.true_and]
                cases hgp : getD fs "properties" with
                | undefined => rw [hgp] at htr; simp [truthy] at htr
                | null => rw [hgp] at hto; simp [tobj] at hto
                | bool b => rfl
                | num n => rfl
                | str t => rfl
                | arr ys => rw [hgp] at hto; simp [tobj] at hto
                | obj o => rw [hgp] at hto; simp [tobj] at hto
              · simp only [if_true]
                have hsome : getF fs "properties" = some (getD fs "properties") :=
                  truthy_getD_some fs "properties" htr
                have hpc : (propsCleanLookup fs).getD .undefined
                    = cleanPropsVal (getD fs "properties") := by
                  rw [propsCleanLookup_eq, hsome]
                  rfl
                rw [hpc]
                cases hgp : getD fs "properties" with
                | undefined => rw [hgp] at htr; simp [truthy] at htr
                | null => rw [hgp] at htr; simp [truthy] at htr
                | bool b => rw [hgp] at hto; simp [tobj] at hto
                | num n => rw [hgp] at hto; simp [tobj] at hto
                | str t => rw [hgp] at hto; simp [tobj] at hto
                | obj pfs =>
                    simp only [cleanPropsVal, truthy, Bool.true_and]
                    rw [propsValInv_obj]
                    apply entriesInv_cleanEntries
                    intro w hw hwt
                    apply IH
                    have h1 : jsize w ≤ fsize pfs := mem_fvals_jsize pfs w hw
                    have h2 : jsize (JVal.obj pfs) ≤ fsize fs := by
                      apply getF_jsize fs "properties"
                      rw [← hgp]
                      exact hsome
                    simp only [jsize] at h2 ⊢
                    omega
                | arr ys =>
                    simp only [cleanPropsVal, truthy, Bool.true_and]
                    rw [propsValInv_obj]
                    apply entriesInv_cleanArr
                    intro w hw hwt
                    apply IH
                    have h1 : jsize w ≤ lsize ys := mem_lvals_jsize ys w hw
                    have h2 : jsize (JVal.arr ys) ≤ fsize fs := by
                      apply getF_jsize fs "properties"
                      rw [← hgp]
                      exact hsome
                    simp only [jsize] at h2 ⊢
                    omega
          rw [hT, hP, hI]
          rfl
      | arr xs =>
          rw [vacs_arr_eq, normInv_obj]
          have hpo : getD (indexFields 0 xs) "properties" = .undefined :=
            getD_indexFields xs 0 "properties" key_head_properties
          have htype : getD (indexFields 0 xs) "type" = .undefined :=
            getD_indexFields xs 0 "type" key_head_type
          have hT : truthy (getD (assembleFields (indexFields 0 xs)
              (getD (indexFields 0 xs) "properties") .undefined) "type") = true := by
            rw [AF_type, htype]
            rfl
          have hP : propsInvLookup (assembleFields (indexFields 0 xs)
              (getD (indexFields 0 xs) "properties") .undefined) = true := by
            rw [propsInvLookup_eq, AF_props _ _ _ rfl, hpo]
            rfl
          have hI : (!(isStrEq (getD (assembleFields (indexFields 0 xs)
                (getD (indexFields 0 xs) "properties") .undefined) "type") "array")
              || truthy (getD (assembleFields (indexFields 0 xs)
                (getD (indexFields 0 xs) "properties") .undefined) "items")) = true := by
            have h := AF_type (indexFields 0 xs) (getD (indexFields 0 xs) "properties") .undefined
            rw [htype] at h
            rw [h]
            rfl
          rw [hT, hP, hI]
          rfl

theorem vacs_fix (u : JVal) : normInv u = true → validateAndCleanSchema u = u := by
  induction u using jval_size_ind with
  | step v IH =>
      intro hn
      cases v with
      | undefined => exact absurd hn (by rw [normInv.eq_def]; simp)
      | null => exact absurd hn (by rw [normInv.eq_def]; simp)
      | bool b => exact absurd hn (by rw [normInv.eq_def]; simp)
      | num n => exact absurd hn (by rw [normInv.eq_def]; simp)
      | str t => exact absurd hn (by rw [normInv.eq_def]; simp)
      | arr xs => exact absurd hn (by rw [normInv.eq_def]; simp)
      | obj fs =>
          rw [normInv_obj, Bool.and_eq_true, Bool.and_eq_true] at hn
          obtain ⟨⟨h1, h2⟩, h3⟩ := hn
          rw [vacs_obj_eq]
          rw [propsInvLookup_eq] at h2
          cases hg : getF fs "properties" with
          | none => rw [hg] at h2; simp at h2
          | some p =>
              rw [hg] at h2
              simp only [Option.map_some', Option.getD_some, Bool.and_eq_true] at h2
              obtain ⟨htr, hpv⟩ := h2
              have hpo : getD fs "properties" = p := by unfold getD; rw [hg]; rfl
              unfold assembleFields
              have e1 : stage1 fs = fs := by unfold stage1; rw [h1]; simp
              rw [e1]
              have e2 : stage2 fs (getD fs "properties") = fs := by
                unfold stage2
                rw [hpo, htr]
                simp
              rw [e2]
              have e3 : stage3 fs (getD fs "properties") ((propsCleanLookup fs).getD .undefined) = fs := by
                unfold stage3
                simp only [hpo]
                cases p with
                | null => simp [truthy] at htr
                | undefined => simp [truthy] at htr
                | bool b =>
                    simp only [truthy, tobj, Bool.and_false, Bool.false_eq_true, if_false]
                | num n =>
                    simp only [truthy, tobj, Bool.and_false, Bool.false_eq_true, if_false]
                | str t =>
                    simp only [truthy, tobj, Bool.and_false, Bool.false_eq_true, if_false]
                | arr ys =>
                    rw [propsValInv.eq_def] at hpv
                    simp at hpv
                | obj pfs =>
                    simp only [truthy, tobj, Bool.and_true, if_true]
                    have hpc : (propsCleanLookup fs).getD .undefined = .obj (cleanEntries pfs) := by
                      rw [propsCleanLookup_eq, hg]
                      rfl
                    rw [hpc]
                    rw [propsValInv_obj] at hpv
                    have hce : cleanEntries pfs = pfs := by
                      apply cleanEntries_id pfs hpv
                      intro w hw hnw
                      apply IH
                      · have ha : jsize w ≤ fsize pfs := mem_fvals_jsize pfs w hw
                        have hb : jsize (JVal.obj pfs) ≤ fsize fs := getF_jsize fs "properties" _ hg
                        simp only [jsize] at hb ⊢
                        omega
                      · exact hnw
                    rw [hce]
                    exact setF_self fs "properties" (.obj pfs) hg
              rw [e3]
              unfold stage4
              cases h4 : isStrEq (getD fs "type") "array"
              · simp [h4]
              · rw [h4] at h3
                simp only [Bool.not_true, Bool.false_or] at h3
                simp [h4, h3]

theorem vacs_props_obj (fs pfs : JFields) (h : getF fs "properties" = some (.obj pfs)) :
    jsGetProp (validateAndCleanSchema (.obj fs)) "properties" = .obj (cleanEntries pfs) := by
  have hpo : getD fs "properties" = .obj pfs := by unfold getD; rw [h]; rfl
  have hpc : (propsCleanLookup fs).getD .undefined = .obj (cleanEntries pfs) := by
    rw [propsCleanLookup_eq, h]
    rfl
  rw [vacs_obj_eq]
  simp only [jsGetProp]
  rw [show getD (assembleFields fs (getD fs "properties")
        ((propsCleanLookup fs).getD JVal.undefined)) "properties"
      = (getF (assembleFields fs (getD fs "properties")
        ((propsCleanLookup fs).getD JVal.undefined)) "properties").getD JVal.undefined from rfl]
  rw [AF_props fs _ _ rfl, hpo, hpc]
  rfl

theorem jlen_formatToolsList (xs : JList) : jlen (formatToolsList xs) = jlen xs := by
  induction xs using jlist_tail_ind with
  | h1 => rfl
  | h2 v tl ih => simp [formatToolsList, jlen, ih]

theorem jgetIdx_formatToolsList (xs : JList) : ∀ i : Nat,
    jgetIdx (formatToolsList xs) i = (jgetIdx xs i).map formatTool := by
  induction xs using jlist_tail_ind with
  | h1 => intro i; rfl
  | h2 v tl ih =>
      intro i
      cases i with
      | zero => rfl
      | succ n => simp [formatToolsList, jgetIdx, ih n]

theorem buildRequestBody_lookups (mv fm : JVal) (ft : JList) (sv : JVal)
    (hmv : isUndefined mv = false) :
    getF (buildRequestBody mv fm ft sv) "tools" = (if isNilL ft then none else some (.arr ft))
    ∧ getF (buildRequestBody mv fm ft sv) "tool_choice"
        = (if isNilL ft then none else some (.str "auto"))
    ∧ getF (buildRequestBody mv fm ft sv) "max_completion_tokens" = some (.num 4000) := by
  have hnum : isUndefined (JVal.num 4000) = false := rfl
  have harr : ∀ ys : JList, isUndefined (JVal.arr ys) = false := fun _ => rfl
  have hstr : ∀ t : String, isUndefined (JVal.str t) = false := fun _ => rfl
  have hu : isUndefined JVal.undefined = true := rfl
  unfold buildRequestBody
  cases hfm : isUndefined fm <;> cases hft : isNilL ft <;> cases hsv : isUndefined sv <;>
    simp [jsonFields, getF, hmv, hfm, hft, hsv, hnum, harr, hstr, hu]

theorem gatedHandler_llm_inv (ah : Option String) (p : ChatPayload) (key : Option String)
    (auth : AuthFetchOutcome) (b : JFields)
    (h : (gatedHandler ah p key auth).outcome = .llmInitiated b) :
    b = llmRequestOf p
    ∧ ∃ ab, auth = .response true ab
        ∧ truthy (jsGetProp ab "isValid") = true
        ∧ truthy (jsGetProp ab "isFreeTrial") = true := by
  cases ah with
  | none => simp [gatedHandler] at h
  | some hs =>
      unfold gatedHandler at h
      dsimp only at h
      by_cases h0 : (hs == "") = true
      · rw [if_pos h0] at h
        simp at h
      · rw [if_neg h0] at h
        cases auth with
        | transportError => simp at h
        | response ok body =>
            dsimp only at h
            by_cases hok : (!ok) = true
            · rw [if_pos hok] at h
              simp at h
            · rw [if_neg hok] at h
              by_cases hv : (!(truthy (jsGetProp body "isValid"))) = true
              · rw [if_pos hv] at h
                simp at h
              · rw [if_neg hv] at h
                by_cases hf : (!(truthy (jsGetProp body "isFreeTrial"))) = true
                · rw [if_pos hf] at h
                  simp at h
                · rw [if_neg hf] at h
                  cases key with
                  | none => dsimp only at h; simp at h
                  | some kk =>
                      dsimp only at h
                      by_cases hk : (kk == "") = true
                      · rw [if_pos hk] at h
                        simp at h
                      · rw [if_neg hk] at h
                        simp at h
                        refine ⟨h.symm, body, ?_, ?_, ?_⟩
                        · have : ok = true := by
                            cases ok
                            · exact absurd rfl hok
                            · rfl
                          rw [this]
                        · cases hvt : truthy (jsGetProp body "isValid")
                          · rw [hvt] at hv
                            exact absurd rfl hv
                          · rfl
                        · cases hft : truthy (jsGetProp body "isFreeTrial")
                          · rw [hft] at hf
                            exact absurd rfl hf
                          · rfl

/-- Claim C3: for every input value that is `undefined`, `null`, or not an object
(in the JavaScript `typeof` sense the normalizer tests — so booleans, numbers and
strings; arrays and plain objects are `typeof "object"`), the Schema Normalizer
returns exactly `{ type: "object", properties: {} }`. -/
theorem claim_C3 (v : JVal) (h : tobj v = false ∨ v = .null) :
    validateAndCleanSchema v = defaultSchema := by
  rcases h with h | h
  · cases v with
    | undefined => rfl
    | null => simp [tobj] at h
    | bool b => rfl
    | num n => rfl
    | str t => rfl
    | arr xs => simp [tobj] at h
    | obj fs => simp [tobj] at h
  · subst h
    rfl

theorem claim_C3_witness :
    ((tobj (JVal.str "hello") = false ∨ JVal.str "hello" = JVal.null)
      ∧ validateAndCleanSchema (JVal.str "hello") = defaultSchema)
    ∧ ((tobj JVal.null = false ∨ JVal.null = JVal.null)
      ∧ validateAndCleanSchema JVal.null = defaultSchema) :=
  ⟨⟨Or.inl rfl, claim_C3 (JVal.str "hello") (Or.inl rfl)⟩,
   ⟨Or.inr rfl, claim_C3 JVal.null (Or.inr rfl)⟩⟩

/-- Claim C4 (amended): for every input schema object whose `properties` field is
present and is an object, the normalizer's output `properties` is the entry-wise
image of the input mapping under the source's per-entry rule `cleanValue`: a
value with `typeof === "object"` is normalized by the same procedure, and every
other value is copied verbatim (NOT normalized — this is where the original
claim fails). -/
theorem claim_C4 (fs pfs : JFields) (h : getF fs "properties" = some (.obj pfs)) (k : String) :
    jsGetProp (validateAndCleanSchema (.obj fs)) "properties" = .obj (cleanEntries pfs)
    ∧ getF (cleanEntries pfs) k = (getF pfs k).map cleanValue :=
  ⟨vacs_props_obj fs pfs h, getF_cleanEntries pfs k⟩

theorem claim_C4_witness :
    getF (.cons "properties" (.obj (.cons "a" (.str "hello") .nil)) .nil : JFields) "properties"
      = some (.obj (.cons "a" (.str "hello") .nil))
    ∧ (jsGetProp (validateAndCleanSchema
          (.obj (.cons "properties" (.obj (.cons "a" (.str "hello") .nil)) .nil))) "properties"
        = .obj (cleanEntries (.cons "a" (.str "hello") .nil))
      ∧ getF (cleanEntries (.cons "a" (.str "hello") .nil)) "a"
        = (getF (.cons "a" (.str "hello") .nil : JFields) "a").map cleanValue) :=
  ⟨rfl, claim_C4 (.cons "properties" (.obj (.cons "a" (.str "hello") .nil)) .nil)
    (.cons "a" (.str "hello") .nil) rfl "a"⟩

/-- Claim C4 as stated is false: on the input
`{ properties: { a: "hello" } }` the output binds `a` to the string `"hello"`
verbatim, not to its image under the normalization procedure (which would be the
default object schema). -/
theorem claim_C4_counterexample :
    ¬ ClaimC4At (.cons "properties" (.obj (.cons "a" (.str "hello") .nil)) .nil)
        (.cons "a" (.str "hello") .nil) := by
  intro h
  have h2 := h rfl "a" (.str "hello") rfl
  have e1 : getF (outPropsF (.obj (.cons "properties"
      (.obj (.cons "a" (.str "hello") .nil)) .nil))) "a" = some (.str "hello") := rfl
  rw [e1] at h2
  have e2 : validateAndCleanSchema (.str "hello") = defaultSchema := rfl
  rw [e2] at h2
  exact JVal.noConfusion (Option.some.inj h2)

/-- Claim C5 (amended): for every finite input, every node the normalizer itself
constructs or rewrites — the output root and, hereditarily, the `typeof`-object
values inside the properties mappings it cleans — satisfies `normInv`: its
`type` field is present and truthy (defaulted to `"object"`), its `properties`
field is present and truthy (an object mapping whose object values recursively
satisfy the invariant, whenever the input's properties value was absent, falsy
or itself `typeof`-object), and an `items` field is present and truthy whenever
`type` is exactly `"array"`.  Nodes copied verbatim — inside `items` subtrees,
inside other passthrough fields, and non-object property values — are exempt
(which is where the original claim fails). -/
theorem claim_C5 (s : JVal) : normInv (validateAndCleanSchema s) = true :=
  norm_vacs s

/-- Claim C5 as stated is false: normalizing
`{ type: "array", items: { type: "object" } }` keeps the `items` subtree
verbatim, so the output contains an object-typed node (the items node) with no
`properties` mapping. -/
theorem claim_C5_counterexample :
    ¬ ClaimC5At (.obj (.cons "type" (.str "array")
        (.cons "items" (.obj (.cons "type" (.str "object") .nil)) .nil))) := by
  intro h
  have hmem : (JVal.obj (.cons "type" (.str "object") .nil))
      ∈ subNodes (validateAndCleanSchema (.obj (.cons "type" (.str "array")
        (.cons "items" (.obj (.cons "type" (.str "object") .nil)) .nil)))) := by
    have e : subNodes (validateAndCleanSchema (.obj (.cons "type" (.str "array")
        (.cons "items" (.obj (.cons "type" (.str "object") .nil)) .nil))))
      = [.obj (.cons "type" (.str "array")
          (.cons "items" (.obj (.cons "type" (.str "object") .nil))
            (.cons "properties" (.obj .nil) .nil))),
         .obj (.cons "type" (.str "object") .nil),
         .obj .nil] := rfl
    rw [e]
    exact List.mem_cons_of_mem _ (List.mem_cons_self _ _)
  have hinv := h _ hmem
  obtain ⟨_, h2, _⟩ := hinv
  obtain ⟨pfs, hp⟩ := h2 rfl
  exact Option.noConfusion hp

/-- Claim C6: the Schema Normalizer is idempotent — normalizing its own output
yields an identical structure. -/
theorem claim_C6 (s : JVal) :
    validateAndCleanSchema (validateAndCleanSchema s) = validateAndCleanSchema s :=
  vacs_fix _ (norm_vacs s)

/-- Claim C10: a `null` property value is routed through the object branch of
`cleanSchemaProperties` (JavaScript `typeof null === "object"`) and replaced by
the default object schema, while any other non-object property value is copied
verbatim. -/
theorem claim_C10 (fs pfs : JFields) (k : String)
    (h : getF fs "properties" = some (.obj pfs)) :
    (getF pfs k = some .null → getF (outPropsF (.obj fs)) k = some defaultSchema)
    ∧ (∀ v, getF pfs k = some v → tobj v = false → getF (outPropsF (.obj fs)) k = some v) := by
  have hout : outPropsF (.obj fs) = cleanEntries pfs := by
    unfold outPropsF
    rw [vacs_props_obj fs pfs h]
  constructor
  · intro hk
    rw [hout, getF_cleanEntries, hk]
    rfl
  · intro v hk ht
    rw [hout, getF_cleanEntries, hk]
    simp only [Option.map_some']
    unfold cleanValue
    rw [ht]
    simp

theorem claim_C10_witness :
    getF (outPropsF (.obj (.cons "properties"
        (.obj (.cons "a" JVal.null .nil)) .nil))) "a" = some defaultSchema :=
  (claim_C10 (.cons "properties" (.obj (.cons "a" JVal.null .nil)) .nil)
    (.cons "a" JVal.null .nil) "a" rfl).1 rfl

theorem isUndef_jsDefault (v d : JVal) (hd : isUndefined d = false) :
    isUndefined (jsDefault v d) = false := by
  cases v with
  | undefined => simpa [jsDefault] using hd
  | null => rfl
  | bool b => rfl
  | num n => rfl
  | str t => rfl
  | arr xs => rfl
  | obj fs => rfl

/-- Claim C7: the Tool Formatter maps `undefined`/non-array input to the empty
sequence; on an array it preserves length and order, and each formatted entry
has the shape `{ type: "function", function: { name, description, parameters } }`
with `description` defaulting to `"Execute " + name` when absent (falsy) and
`parameters` the normalized `inputSchema` (the `|| default` fallback being dead
since the normalizer's output is always truthy). -/
theorem claim_C7 :
    (∀ v : JVal, isArrB v = false → formatToolsForLLM v = .nil)
    ∧ (∀ xs : JList, jlen (formatToolsForLLM (.arr xs)) = jlen xs)
    ∧ (∀ (xs : JList) (i : Nat) (t : JVal), jgetIdx xs i = some t →
        jgetIdx (formatToolsForLLM (.arr xs)) i = some (formatTool t))
    ∧ (∀ (t : JVal) (tfs : JFields), t = .obj tfs →
        jsGetProp (formatTool t) "type" = .str "function"
        ∧ jsGetProp (jsGetProp (formatTool t) "function") "name" = jsGetProp t "name"
        ∧ jsGetProp (jsGetProp (formatTool t) "function") "description"
            = (if truthy (jsGetProp t "description") then jsGetProp t "description"
               else .str ("Execute " ++ jsToString (jsGetProp t "name")))
        ∧ jsGetProp (jsGetProp (formatTool t) "function") "parameters"
            = validateAndCleanSchema (jsGetProp t "inputSchema")) := by
  refine ⟨?_, ?_, ?_, ?_⟩
  · intro v hv
    cases v with
    | arr xs => simp [isArrB] at hv
    | undefined => rfl
    | null => rfl
    | bool b => rfl
    | num n => rfl
    | str t => rfl
    | obj fs => rfl
  · intro xs
    exact jlen_formatToolsList xs
  · intro xs i t ht
    have h := jgetIdx_formatToolsList xs i
    rw [ht] at h
    simpa using h
  · intro t tfs ht
    subst ht
    refine ⟨rfl, rfl, rfl, ?_⟩
    show (if truthy (validateAndCleanSchema (jsGetProp (.obj tfs) "inputSchema")) then
            validateAndCleanSchema (jsGetProp (.obj tfs) "inputSchema")
          else defaultSchema)
        = validateAndCleanSchema (jsGetProp (.obj tfs) "inputSchema")
    rw [truthy_vacs]
    simp

theorem claim_C7_witness :
    jsGetProp (jsGetProp (formatTool (.obj (.cons "name" (.str "find_rfa") .nil))) "function")
        "description" = .str "Execute find_rfa"
    ∧ jgetIdx (formatToolsForLLM (.arr (.cons (.obj (.cons "name" (.str "find_rfa") .nil)) .nil))) 0
        = some (formatTool (.obj (.cons "name" (.str "find_rfa") .nil))) := by
  constructor
  · have h := (claim_C7.2.2.2 (.obj (.cons "name" (.str "find_rfa") .nil))
        (.cons "name" (.str "find_rfa") .nil) rfl).2.2.1
    rw [h]
    rfl
  · exact claim_C7.2.2.1 (.cons (.obj (.cons "name" (.str "find_rfa") .nil)) .nil) 0
      (.obj (.cons "name" (.str "find_rfa") .nil)) rfl

/-- Claim C8: with the destructuring default applied (`includeSystemPrompt`
defaults to `true` when absent), the fixed system-prompt message is prepended to
an array of messages exactly when `includeSystemPrompt` is truthy, the array is
non-empty, and the first message's `role` is not the string `"system"`; in every
other case the array passes through unmodified.  Only the first message is
inspected, so a system message elsewhere does not suppress injection (the
injection case places no constraint on the tail). -/
theorem claim_C8 (inclRaw : JVal) (xs : JList) :
    (truthy (jsDefault inclRaw (.bool true)) = true → isNilL xs = false →
        isStrEq (jsGetProp (jheadD xs) "role") "system" = false →
        prepareMessages (jsDefault inclRaw (.bool true)) (.arr xs)
          = .arr (.cons systemMessage xs))
    ∧ (truthy (jsDefault inclRaw (.bool true)) = false ∨ isNilL xs = true
        ∨ isStrEq (jsGetProp (jheadD xs) "role") "system" = true →
        prepareMessages (jsDefault inclRaw (.bool true)) (.arr xs) = .arr xs) := by
  constructor
  · intro h1 h2 h3
    show (if truthy (jsDefault inclRaw (.bool true)) && !(isNilL xs)
            && !(isStrEq (jsGetProp (jheadD xs) "role") "system") then
          JVal.arr (.cons systemMessage xs)
        else JVal.arr xs) = JVal.arr (.cons systemMessage xs)
    rw [h1, h2, h3]
    rfl
  · intro h
    show (if truthy (jsDefault inclRaw (.bool true)) && !(isNilL xs)
            && !(isStrEq (jsGetProp (jheadD xs) "role") "system") then
          JVal.arr (.cons systemMessage xs)
        else JVal.arr xs) = JVal.arr xs
    rcases h with h | h | h <;> rw [h] <;> simp

theorem claim_C8_witness :
    prepareMessages (jsDefault .undefined (.bool true))
        (.arr (.cons (.obj (.cons "role" (.str "user") .nil))
          (.cons (.obj (.cons "role" (.str "system") .nil)) .nil)))
      = .arr (.cons systemMessage
          (.cons (.obj (.cons "role" (.str "user") .nil))
            (.cons (.obj (.cons "role" (.str "system") .nil)) .nil))) :=
  (claim_C8 .undefined (.cons (.obj (.cons "role" (.str "user") .nil))
      (.cons (.obj (.cons "role" (.str "system") .nil)) .nil))).1 rfl rfl rfl

/-- Claim C9: whenever the gated handler initiates the outbound LLM call, the
serialized request body contains `tools` and `tool_choice` (the latter
`"auto"`) exactly when the Tool Formatter produced a non-empty sequence for the
payload's tools; when it produced the empty sequence both keys are omitted from
the serialized body; and `max_completion_tokens` is always the constant 4000. -/
theorem claim_C9 (ah : Option String) (p : ChatPayload) (key : Option String)
    (auth : AuthFetchOutcome) (b : JFields)
    (h : (gatedHandler ah p key auth).outcome = .llmInitiated b) :
    getF b "tools"
      = (if isNilL (if truthy p.tools then formatToolsForLLM p.tools else .nil) then none
         else some (.arr (if truthy p.tools then formatToolsForLLM p.tools else .nil)))
    ∧ getF b "tool_choice"
      = (if isNilL (if truthy p.tools then formatToolsForLLM p.tools else .nil) then none
         else some (.str "auto"))
    ∧ getF b "max_completion_tokens" = some (.num 4000) := by
  obtain ⟨hb, -⟩ := gatedHandler_llm_inv ah p key auth b h
  subst hb
  unfold llmRequestOf
  exact buildRequestBody_lookups _ _ _ _ (isUndef_jsDefault p.model (.str "gpt-5") rfl)

theorem claim_C9_witness :
    getF (llmRequestOf ⟨.undefined, .arr (.cons (.obj (.cons "name" (.str "find_rfa") .nil)) .nil),
        .undefined, .undefined, .undefined⟩) "max_completion_tokens" = some (.num 4000)
    ∧ getF (llmRequestOf ⟨.undefined, .arr (.cons (.obj (.cons "name" (.str "find_rfa") .nil)) .nil),
        .undefined, .undefined, .undefined⟩) "tool_choice" = some (.str "auto") := by
  have h := claim_C9 (some "Bearer t")
      ⟨.undefined, .arr (.cons (.obj (.cons "name" (.str "find_rfa") .nil)) .nil),
        .undefined, .undefined, .undefined⟩
      (some "k")
      (.response true (.obj (.cons "isValid" (.bool true) (.cons "isFreeTrial" (.bool true) .nil))))
      (llmRequestOf ⟨.undefined, .arr (.cons (.obj (.cons "name" (.str "find_rfa") .nil)) .nil),
        .undefined, .undefined, .undefined⟩)
      rfl
  refine ⟨h.2.2, ?_⟩
  rw [h.2.1]
  rfl

/-- Claim C1: a request whose `Authorization` header is absent is answered
`401 'No authorization token provided'` immediately: the auth-validation
service receives no request (empty token list) and the LLM call is never
initiated (the outcome is the early error, for every payload, API-key
configuration and would-be auth-service behaviour). -/
theorem claim_C1 (p : ChatPayload) (key : Option String) (auth : AuthFetchOutcome) :
    gatedHandler none p key auth
      = ⟨.earlyError 401 "No authorization token provided", []⟩ := rfl

/-- Claim C2: for a request that reaches the auth-service call (non-empty
`Authorization` header) and receives an `ok` response: a falsy `isValid` yields
`401 'Invalid token'`; truthy `isValid` with falsy `isFreeTrial` yields
`403 'Subscription required …'`; with both truthy (and a configured API key) the
pipeline proceeds to the LLM call; and conversely the LLM call is only ever
initiated after an `ok` auth response whose `isValid` and `isFreeTrial` are both
truthy. -/
theorem claim_C2 (hs : String) (hhs : ¬ hs = "") (p : ChatPayload) (ab : JVal) :
    (∀ key : Option String, truthy (jsGetProp ab "isValid") = false →
        gatedHandler (some hs) p key (.response true ab)
          = ⟨.earlyError 401 "Invalid token", [stripBearer hs]⟩)
    ∧ (∀ key : Option String, truthy (jsGetProp ab "isValid") = true →
        truthy (jsGetProp ab "isFreeTrial") = false →
        gatedHandler (some hs) p key (.response true ab)
          = ⟨.earlyError 403 "Subscription required (Free trial expired or not active)",
              [stripBearer hs]⟩)
    ∧ (∀ kk : String, ¬ kk = "" → truthy (jsGetProp ab "isValid") = true →
        truthy (jsGetProp ab "isFreeTrial") = true →
        gatedHandler (some hs) p (some kk) (.response true ab)
          = ⟨.llmInitiated (llmRequestOf p), [stripBearer hs]⟩)
    ∧ (∀ (key : Option String) (auth : AuthFetchOutcome) (b : JFields),
        (gatedHandler (some hs) p key auth).outcome = .llmInitiated b →
        ∃ vd, auth = .response true vd ∧ truthy (jsGetProp vd "isValid") = true
          ∧ truthy (jsGetProp vd "isFreeTrial") = true) := by
  have hbeq : (hs == "") = false := by simp [hhs]
  refine ⟨?_, ?_, ?_, ?_⟩
  · intro key hv
    simp [gatedHandler, hbeq, hv]
  · intro key hv hf
    simp [gatedHandler, hbeq, hv, hf]
  · intro kk hkk hv hf
    have hkbeq : (kk == "") = false := by simp [hkk]
    simp [gatedHandler, hbeq, hv, hf, hkbeq]
  · intro key auth b h
    exact (gatedHandler_llm_inv (some hs) p key auth b h).2

theorem claim_C2_witness :
    ¬ "Bearer tok" = ""
    ∧ gatedHandler (some "Bearer tok") ⟨.undefined, .undefined, .undefined, .undefined, .undefined⟩ (some "sk")
        (.response true (.obj (.cons "isValid" (.bool true)
          (.cons "isFreeTrial" (.bool false) .nil))))
      = ⟨.earlyError 403 "Subscription required (Free trial expired or not active)", ["tok"]⟩ := by
  refine ⟨by decide, ?_⟩
  have h := (claim_C2 "Bearer tok" (by decide) ⟨.undefined, .undefined, .undefined, .undefined, .undefined⟩
      (.obj (.cons "isValid" (.bool true) (.cons "isFreeTrial" (.bool false) .nil)))).2.1
      (some "sk") rfl rfl
  rw [h]
  rfl
